import Mathlib

/-!
A shallow embedding of the scenario core of the loadforge-agent repository:
the variable-substitution engine (`substitutor.go`) and the scenario
parser/validator (`parser.go`), together with the fragment of Go's
`encoding/json` behaviour that `ApplyToBody` relies on.

Go machine integers are modelled as `Nat`/`Int`; Go `map[string]string`
values are modelled either as association lists (where only lookup and
whole-map iteration matter) or, for the mutation claims, as references
into an explicit store.  Fallible Go functions returning `(T, error)`
are modelled as `Except String T`, carrying the `fmt.Errorf` message
built by string concatenation.
-/

set_option maxRecDepth 100000

namespace LoadForge

/-! ## Small string utilities shared by several components -/

/-- Splits a character list at the first occurrence of `c`, if any. -/
def breakAtChar (c : Char) : List Char → Option (List Char × List Char)
  | [] => none
  | d :: rest =>
    if d = c then some ([], rest)
    else (breakAtChar c rest).map (fun p => (d :: p.1, p.2))

/-- Go `strings.SplitN(s, sep, 2)` for a single-character separator:
splits at the first occurrence of `c`, or returns `[s]` when `c` does
not occur. -/
def splitN2 (s : String) (c : Char) : List String :=
  match breakAtChar c s.data with
  | none => [s]
  | some p => [String.mk p.1, String.mk p.2]

/-- Go `%q` quoting of a string (`strconv.Quote`), for the characters that
can occur in the identifiers this code base quotes: printable characters
are kept, `"` and `\` are escaped, the common control characters get
their two-character escapes. -/
def goQuoteChar (c : Char) : List Char :=
  if c = '"' then ['\\', '"']
  else if c = '\\' then ['\\', '\\']
  else if c = '\n' then ['\\', 'n']
  else if c = '\t' then ['\\', 't']
  else if c = '\r' then ['\\', 'r']
  else [c]

/-- Go `fmt.Sprintf("%q", s)` (restricted to the characters above). -/
def goQuote (s : String) : String :=
  String.mk ('"' :: s.data.flatMap goQuoteChar ++ ['"'])

/-! ## The substitution primitive

Go source (`substitutor.go`):

```
var varPattern = regexp.MustCompile(`\$\x7b([^\x7d]+)\x7d`)

func substitute(s string, vars map[string]string) (string, error) \x7b
    var firstErr error
    result := varPattern.ReplaceAllStringFunc(s, func(match string) string \x7b ... \x7d)
    if firstErr != nil \x7b return "", firstErr \x7d
    return result, nil
\x7d
```

`ReplaceAllStringFunc` rewrites the leftmost non-overlapping matches in
order.  For this pattern a match starts at a literal `$` `\x7b`, its name is
the (necessarily non-empty, by the `+`) run of characters up to the first
`\x7d`, and the match ends at that `\x7d`; if the character directly after
`$\x7b` is `\x7d` there is no match starting there.  The callback records the
first name missing from `vars` and the whole call then fails with that
error.  Replacement text is not rescanned.
-/

/-- Splits `cs` at its first `\x7d`: `some (before, after)`, or `none` when
`cs` has no `\x7d`. -/
def breakAtBrace : List Char → Option (List Char × List Char)
  | [] => none
  | c :: rest =>
    if c = '}' then some ([], rest)
    else (breakAtBrace rest).map (fun p => (c :: p.1, p.2))

/-- Reads `[^\x7d]+\x7d` from the front of `cs`: the (non-empty) name up to the
first `\x7d`, and the remainder after that `\x7d`.  `none` when there is no
closing `\x7d` or the name would be empty (the `+` in `varPattern` requires
at least one name character). -/
def scanName (cs : List Char) : Option (List Char × List Char) :=
  (breakAtBrace cs).bind (fun p => if p.1 = [] then none else some p)

/-- The error message `fmt.Errorf("undefined variable %q", name)`. -/
def undefVarMsg (name : List Char) : String :=
  "undefined variable " ++ goQuote (String.mk name)

/-- Association-list lookup modelling a read of a Go `map[string]string`. -/
def lookupVar (vars : List (String × String)) (name : String) : Option String :=
  (vars.find? (fun kv => kv.1 = name)).map (fun kv => kv.2)

/-- One leftmost-match scan step of `substitute`, fuelled so that the
kernel can evaluate it (the fuel is always at least the length of the
character list, which strictly decreases at every recursive call).
A match begins where a literal `$` is directly followed by `\x7b` and
`scanName` finds a non-empty name closed by `\x7d`; everywhere else the
scan moves one character to the right, as the regex engine does. -/
def substFuel (vars : List (String × String)) : Nat → List Char → Except String (List Char)
  | 0, _ => Except.ok []
  | _ + 1, [] => Except.ok []
  | f + 1, c :: rest =>
    if c = '$' ∧ rest.head? = some '{' then
      match scanName rest.tail with
      | some (name, rest2) =>
        match lookupVar vars (String.mk name) with
        | some v => (substFuel vars f rest2).map (fun t => v.data ++ t)
        | none => Except.error (undefVarMsg name)
      | none => (substFuel vars f rest).map (fun t => c :: t)
    else (substFuel vars f rest).map (fun t => c :: t)

/-- `substitute` from `substitutor.go`. -/
def substitute (s : String) (vars : List (String × String)) : Except String String :=
  (substFuel vars s.data.length s.data).map String.mk

/-! ### A token-level specification of the same scan

`toksFuel` performs exactly the same leftmost-match scan but merely
records what it saw: literal characters and placeholder names.  All of
the claims about `substitute` are phrased against this tokenisation. -/

/-- A token of the placeholder scan: a literal character, or a
placeholder `$\x7b name \x7d`. -/
inductive Tok where
  | lit (c : Char)
  | ph (name : List Char)
deriving DecidableEq, Repr

/-- Tokenise by the same leftmost-match scan as `substFuel`. -/
def toksFuel : Nat → List Char → List Tok
  | 0, _ => []
  | _ + 1, [] => []
  | f + 1, c :: rest =>
    if c = '$' ∧ rest.head? = some '{' then
      match scanName rest.tail with
      | some (name, rest2) => Tok.ph name :: toksFuel f rest2
      | none => Tok.lit c :: toksFuel f rest
    else Tok.lit c :: toksFuel f rest

/-- The tokens of a template string. -/
def toks (s : String) : List Tok :=
  toksFuel s.data.length s.data

/-- The placeholder names of a template, in left-to-right scan order. -/
def placeholders (s : String) : List (List Char) :=
  (toks s).filterMap (fun t => match t with | Tok.ph n => some n | Tok.lit _ => none)

/-- Renders a token list against a context: literals pass through,
placeholders are replaced by their looked-up values; the first
placeholder whose name is missing makes the whole rendering fail with
the `undefined variable` error. -/
def renderToks (vars : List (String × String)) : List Tok → Except String (List Char)
  | [] => Except.ok []
  | Tok.lit c :: ts => (renderToks vars ts).map (fun t => c :: t)
  | Tok.ph name :: ts =>
    match lookupVar vars (String.mk name) with
    | some v => (renderToks vars ts).map (fun t => v.data ++ t)
    | none => Except.error (undefVarMsg name)

/-- The first name of `names` that is not bound in `vars`, if any. -/
def firstMissing (vars : List (String × String)) (names : List (List Char)) :
    Option (List Char) :=
  names.find? (fun n => (lookupVar vars (String.mk n)).isNone)

/-- The placeholder names of a token list, in order. -/
def phNames (ts : List Tok) : List (List Char) :=
  ts.filterMap (fun t => match t with | Tok.ph n => some n | Tok.lit _ => none)

/-- Renders a token list totally: placeholders become their looked-up
value, or the empty string if unbound.  On a fully-resolvable template
this is "the template with every placeholder replaced by its value". -/
def flatRender (vars : List (String × String)) (ts : List Tok) : List Char :=
  ts.flatMap (fun t =>
    match t with
    | Tok.lit c => [c]
    | Tok.ph n => ((lookupVar vars (String.mk n)).getD "").data)

/-- The characters a token stands for in the original template. -/
def tokChars : Tok → List Char
  | Tok.lit c => [c]
  | Tok.ph n => '$' :: '{' :: (n ++ ['}'])

/-! ### Lemmas: the one-pass `substFuel` agrees with the token-level view -/

theorem breakAtBrace_decomp :
    ∀ {cs n r : List Char}, breakAtBrace cs = some (n, r) → cs = n ++ '}' :: r := by
  intro cs
  induction cs with
  | nil => intro n r h; exact absurd h (by simp [breakAtBrace])
  | cons c rest ih =>
    intro n r h
    by_cases hc : c = '}'
    · rw [breakAtBrace, if_pos hc] at h
      simp only [Option.some.injEq, Prod.mk.injEq] at h
      rw [← h.1, ← h.2, hc]
      rfl
    · rw [breakAtBrace, if_neg hc] at h
      cases hb : breakAtBrace rest with
      | none => rw [hb] at h; exact absurd h (by simp)
      | some p =>
        rw [hb] at h
        simp only [Option.map_some', Option.some.injEq, Prod.mk.injEq] at h
        rw [← h.1, ← h.2]
        have hrec : rest = p.1 ++ '}' :: p.2 := ih (by rw [hb])
        rw [List.cons_append, ← hrec]

theorem scanName_decomp {cs n r : List Char} (h : scanName cs = some (n, r)) :
    cs = n ++ '}' :: r := by
  unfold scanName at h
  cases hb : breakAtBrace cs with
  | none => rw [hb] at h; exact absurd h (by simp)
  | some p =>
    rw [hb, Option.some_bind] at h
    by_cases hn : p.1 = []
    · rw [if_pos hn] at h; exact absurd h (by simp)
    · rw [if_neg hn] at h
      simp only [Option.some.injEq] at h
      subst h
      exact breakAtBrace_decomp hb

theorem scanName_length {cs n r : List Char} (h : scanName cs = some (n, r)) :
    r.length < cs.length := by
  have hd := scanName_decomp h
  rw [hd, List.length_append, List.length_cons]
  omega

theorem exceptMap_eq_error {α β : Type} (f : α → β) (x : Except String α) (e : String) :
    x.map f = Except.error e ↔ x = Except.error e := by
  cases x <;> simp [Except.map]

theorem exceptMap_eq_ok {α β : Type} (f : α → β) (x : Except String α) (b : β) :
    x.map f = Except.ok b ↔ ∃ a, x = Except.ok a ∧ b = f a := by
  cases x <;> simp [Except.map]
  exact eq_comm

/-- The fuelled one-pass substitution computes exactly the rendering of
the tokenisation, provided the fuel covers the input length. -/
theorem substFuel_eq_renderToks (vars : List (String × String)) :
    ∀ (f : Nat) (cs : List Char), cs.length ≤ f →
      substFuel vars f cs = renderToks vars (toksFuel f cs) := by
  intro f
  induction f with
  | zero =>
    intro cs h
    have : cs = [] := List.length_eq_zero.mp (Nat.le_zero.mp h)
    subst this; rfl
  | succ f ih =>
    intro cs h
    cases cs with
    | nil => rfl
    | cons c rest =>
      have hrest : rest.length ≤ f := by simpa using h
      by_cases hc : c = '$' ∧ rest.head? = some '{'
      · cases hs : scanName rest.tail with
        | some p =>
          obtain ⟨name, rest2⟩ := p
          have hlen : rest2.length ≤ f := by
            have h1 := scanName_length hs
            have h2 : rest.tail.length ≤ rest.length := by
              cases rest <;> simp
            omega
          cases hv : lookupVar vars (String.mk name) with
          | some v =>
            simp only [substFuel, toksFuel, if_pos hc, hs, hv, renderToks, ih _ hlen]
          | none =>
            simp only [substFuel, toksFuel, if_pos hc, hs, hv, renderToks]
        | none =>
          simp only [substFuel, toksFuel, if_pos hc, hs, renderToks, ih _ hrest]
      · simp only [substFuel, toksFuel, if_neg hc, renderToks, ih _ hrest]

/-- `substitute` in terms of the token-level rendering. -/
theorem substitute_eq_renderToks (s : String) (vars : List (String × String)) :
    substitute s vars = (renderToks vars (toks s)).map String.mk := by
  unfold substitute toks
  rw [substFuel_eq_renderToks vars s.data.length s.data le_rfl]

theorem renderToks_error_iff (vars : List (String × String)) (ts : List Tok) (e : String) :
    renderToks vars ts = Except.error e ↔
      ∃ n, firstMissing vars (phNames ts) = some n ∧ e = undefVarMsg n := by
  induction ts with
  | nil => simp [renderToks, firstMissing, phNames]
  | cons t ts ih =>
    cases t with
    | lit c =>
      rw [show renderToks vars (Tok.lit c :: ts) = (renderToks vars ts).map (fun t => c :: t)
          from rfl]
      rw [exceptMap_eq_error]
      simpa [phNames, firstMissing] using ih
    | ph n =>
      cases hv : lookupVar vars (String.mk n) with
      | some v =>
        rw [show renderToks vars (Tok.ph n :: ts) =
            (renderToks vars ts).map (fun t => v.data ++ t) by simp [renderToks, hv]]
        rw [exceptMap_eq_error]
        have hfm : firstMissing vars (phNames (Tok.ph n :: ts)) = firstMissing vars (phNames ts) := by
          simp [phNames, firstMissing, List.find?, hv]
        rw [hfm]
        exact ih
      | none =>
        have h1 : renderToks vars (Tok.ph n :: ts) = Except.error (undefVarMsg n) := by
          simp [renderToks, hv]
        have h2 : firstMissing vars (phNames (Tok.ph n :: ts)) = some n := by
          simp [phNames, firstMissing, List.find?, hv]
        rw [h1, h2]
        constructor
        · intro h
          injection h with h
          exact ⟨n, rfl, h.symm⟩
        · rintro ⟨m, hm, he⟩
          injection hm with hm
          subst hm; subst he; rfl

theorem renderToks_ok_iff (vars : List (String × String)) (ts : List Tok) (r : List Char) :
    renderToks vars ts = Except.ok r ↔
      firstMissing vars (phNames ts) = none ∧ r = flatRender vars ts := by
  induction ts generalizing r with
  | nil => simp [renderToks, firstMissing, phNames, flatRender, eq_comm]
  | cons t ts ih =>
    cases t with
    | lit c =>
      rw [show renderToks vars (Tok.lit c :: ts) = (renderToks vars ts).map (fun t => c :: t)
          from rfl]
      rw [exceptMap_eq_ok]
      constructor
      · rintro ⟨a, ha, rfl⟩
        obtain ⟨h1, h2⟩ := (ih a).mp ha
        refine ⟨by simpa [phNames, firstMissing] using h1, by rw [h2]; rfl⟩
      · rintro ⟨h1, h2⟩
        refine ⟨flatRender vars ts, (ih _).mpr ⟨by simpa [phNames, firstMissing] using h1, rfl⟩, ?_⟩
        simpa [flatRender] using h2
    | ph n =>
      cases hv : lookupVar vars (String.mk n) with
      | some v =>
        rw [show renderToks vars (Tok.ph n :: ts) =
            (renderToks vars ts).map (fun t => v.data ++ t) by simp [renderToks, hv]]
        rw [exceptMap_eq_ok]
        have hfm : firstMissing vars (phNames (Tok.ph n :: ts)) = firstMissing vars (phNames ts) := by
          simp [phNames, firstMissing, List.find?, hv]
        have hfr : flatRender vars (Tok.ph n :: ts) = v.data ++ flatRender vars ts := by
          simp [flatRender, hv]
        rw [hfm, hfr]
        constructor
        · rintro ⟨a, ha, rfl⟩
          obtain ⟨h1, h2⟩ := (ih a).mp ha
          exact ⟨h1, by rw [← h2]⟩
        · rintro ⟨h1, h2⟩
          exact ⟨flatRender vars ts, (ih _).mpr ⟨h1, rfl⟩, h2⟩
      | none =>
        have h1 : renderToks vars (Tok.ph n :: ts) = Except.error (undefVarMsg n) := by
          simp [renderToks, hv]
        have h2 : firstMissing vars (phNames (Tok.ph n :: ts)) = some n := by
          simp [phNames, firstMissing, List.find?, hv]
        rw [h1, h2]
        simp

/-- Faithfulness of the tokenisation: re-expanding the tokens gives back
the original character list. -/
theorem toksFuel_reconstruct :
    ∀ (f : Nat) (cs : List Char), cs.length ≤ f →
      (toksFuel f cs).flatMap tokChars = cs := by
  intro f
  induction f with
  | zero =>
    intro cs h
    have : cs = [] := List.length_eq_zero.mp (Nat.le_zero.mp h)
    subst this; rfl
  | succ f ih =>
    intro cs h
    cases cs with
    | nil => rfl
    | cons c rest =>
      have hrest : rest.length ≤ f := by simpa using h
      by_cases hc : c = '$' ∧ rest.head? = some '{'
      · have hc1 := hc.1
        have hc2 := hc.2
        have hdec : rest = '{' :: rest.tail := by
          cases rest with
          | nil => simp at hc2
          | cons d rest1 => simp at hc2; simp [hc2]
        cases hs : scanName rest.tail with
        | some p =>
          obtain ⟨name, rest2⟩ := p
          have hlen : rest2.length ≤ f := by
            have h1 := scanName_length hs
            have h2 : rest.tail.length ≤ rest.length := by cases rest <;> simp
            omega
          have hd := scanName_decomp hs
          simp only [toksFuel, if_pos hc, hs, List.flatMap_cons, tokChars, ih _ hlen]
          rw [hc1]
          conv_rhs => rw [hdec, hd]
          simp
        | none =>
          simp only [toksFuel, if_pos hc, hs, List.flatMap_cons, tokChars, ih _ hrest]
          rfl
      · simp only [toksFuel, if_neg hc, List.flatMap_cons, tokChars, ih _ hrest]
        rfl

/-- A template with no placeholders renders to itself. -/
theorem flatRender_of_no_ph (vars : List (String × String)) :
    ∀ ts : List Tok, phNames ts = [] → flatRender vars ts = ts.flatMap tokChars := by
  intro ts
  induction ts with
  | nil => intro _; rfl
  | cons t ts ih =>
    intro h
    cases t with
    | lit c =>
      have h' : phNames ts = [] := by simpa [phNames] using h
      simp [flatRender, tokChars, ← ih h']
    | ph n => simp [phNames] at h

/-! ### Claims C3, C4, C5 -/

/-- C4: for every template and context, `substitute` fails exactly when
some placeholder is unbound, and then its error names the first
unresolved identifier in left-to-right scan order (no partial result, the
`Except` carries only the error); it succeeds exactly when every
placeholder resolves, and then returns the template with every
placeholder replaced verbatim by its looked-up value. -/
theorem substitute_first_undefined_full (s : String) (vars : List (String × String)) :
    (∀ e, substitute s vars = Except.error e ↔
        ∃ n, firstMissing vars (placeholders s) = some n ∧ e = undefVarMsg n) ∧
    (∀ r, substitute s vars = Except.ok r ↔
        firstMissing vars (placeholders s) = none ∧ r = String.mk (flatRender vars (toks s))) := by
  have hsub := substitute_eq_renderToks s vars
  have hph : placeholders s = phNames (toks s) := rfl
  constructor
  · intro e
    rw [hsub, exceptMap_eq_error, hph]
    exact renderToks_error_iff vars (toks s) e
  · intro r
    rw [hsub, exceptMap_eq_ok, hph]
    constructor
    · rintro ⟨a, ha, rfl⟩
      obtain ⟨h1, h2⟩ := (renderToks_ok_iff vars (toks s) a).mp ha
      exact ⟨h1, by rw [h2]⟩
    · rintro ⟨h1, h2⟩
      exact ⟨flatRender vars (toks s), (renderToks_ok_iff _ _ _).mpr ⟨h1, rfl⟩, h2⟩

/-- C4 witness: on `"$\x7bx\x7d $\x7by\x7d $\x7bz\x7d"` with only `x` bound, the reported
error names `y` (the first unresolved name in scan order, not `z`); and a
fully-resolvable template is rendered with its placeholder replaced. -/
theorem substitute_first_undefined_witness :
    substitute "$\x7bx\x7d $\x7by\x7d $\x7bz\x7d" [("x", "1")] = Except.error (undefVarMsg ['y']) ∧
    substitute "a $\x7bx\x7d b" [("x", "1")] = Except.ok "a 1 b" :=
  ⟨((substitute_first_undefined_full _ _).1 _).mpr ⟨['y'], rfl, rfl⟩,
   ((substitute_first_undefined_full _ _).2 _).mpr ⟨rfl, rfl⟩⟩

/-- C5: substitution is the identity on templates with zero
placeholders, for every context. -/
theorem substitute_no_placeholder_identity (s : String) (vars : List (String × String))
    (h : placeholders s = []) : substitute s vars = Except.ok s := by
  rw [substitute_eq_renderToks]
  have hok : renderToks vars (toks s) = Except.ok (flatRender vars (toks s)) :=
    (renderToks_ok_iff _ _ _).mpr ⟨by rw [show phNames (toks s) = placeholders s from rfl, h]; rfl, rfl⟩
  rw [hok]
  simp only [Except.map, Except.ok.injEq]
  rw [flatRender_of_no_ph _ _ h]
  rw [show toks s = toksFuel s.data.length s.data from rfl]
  rw [toksFuel_reconstruct s.data.length s.data le_rfl]

/-- C5 witness. -/
theorem substitute_no_placeholder_identity_witness :
    placeholders "hello world" = [] ∧
    substitute "hello world" [("a", "b")] = Except.ok "hello world" :=
  ⟨rfl, substitute_no_placeholder_identity _ _ rfl⟩

/-- C3 counterexample: `$\x7b\x7d` is not matched by `varPattern` (whose name
part is `[^\x7d]+`, requiring at least one character), so `substitute`
returns it verbatim — it does not resolve against an empty-string
context key, and it does not fail when that key is absent. -/
theorem emptyPlaceholder_cex :
    substitute "$\x7b\x7d" [("", "v")] = Except.ok "$\x7b\x7d" ∧
    substitute "$\x7b\x7d" [] = Except.ok "$\x7b\x7d" :=
  ⟨rfl, rfl⟩

/-- C3 amended: the empty placeholder `$\x7b\x7d` is not syntactically valid
for `varPattern`; `substitute` leaves the template `$\x7b\x7d` unchanged and
succeeds for every context, never consulting the empty-string key. -/
theorem emptyPlaceholder_left_verbatim (vars : List (String × String)) :
    substitute "$\x7b\x7d" vars = Except.ok "$\x7b\x7d" := by
  rw [substitute_eq_renderToks]
  have ht : toks "$\x7b\x7d" = [Tok.lit '$', Tok.lit '{', Tok.lit '}'] := rfl
  rw [ht]
  rfl

/-! ## Go values and the `encoding/json` fragment used by `ApplyToBody`

`ApplyToBody` takes `body interface\x7b\x7d` (as decoded from YAML: strings,
integers, floats, booleans, nil, `[]interface\x7b\x7d`, `map[string]interface\x7b\x7d`),
marshals it with `encoding/json`, substitutes, and unmarshals with a plain
`json.Unmarshal` into `interface\x7b\x7d` — which decodes every JSON number as a
`float64`.

A `float64` is modelled exactly, as a canonical pair `(m, k)` of integers
standing for the real value `m * 2^k`, with `m` odd (or `m = 0, k = 0`);
rounding of a decimal literal to the nearest `float64` (ties to even,
as `strconv.ParseFloat` does) is implemented below in integer
arithmetic.  Go maps are unordered; a `GoFields` list represents a
`map[string]interface\x7b\x7d` by its key-sorted field sequence, which is also
the order in which `json.Marshal` emits object keys. -/

mutual
inductive GoVal where
  | null
  | bool (b : Bool)
  | str (s : String)
  | int (n : Int)
  | float (m : Int) (k : Int)
  | arr (xs : GoVals)
  | obj (kvs : GoFields)
inductive GoVals where
  | nil
  | cons (v : GoVal) (rest : GoVals)
inductive GoFields where
  | nil
  | cons (k : String) (v : GoVal) (rest : GoFields)
end

/-! ### Correctly-rounded conversion of a decimal literal to a float64 -/

/-- Fuelled floor-log2 (the fuel argument only drives termination). -/
def log2fuel : Nat → Nat → Nat
  | 0, _ => 0
  | f + 1, n => if 2 ≤ n then log2fuel f (n / 2) + 1 else 0

/-- `natLog2 n` is the greatest `e` with `2^e ≤ n`, for `n ≥ 1`. -/
def natLog2 (n : Nat) : Nat := log2fuel n n

/-- Decides `q * 2^e ≤ p` for an integer exponent `e`. -/
def pow2Le (q : Nat) (e : Int) (p : Nat) : Bool :=
  match e with
  | Int.ofNat n => q * 2 ^ n ≤ p
  | Int.negSucc n => q ≤ p * 2 ^ (n + 1)

/-- The greatest `e` with `2^e ≤ p / q`, for `p, q ≥ 1`. -/
def ratLog2 (p q : Nat) : Int :=
  let e0 : Int := (natLog2 p : Int) - (natLog2 q : Int)
  if pow2Le q e0 p then e0 else e0 - 1

/-- Rounds `(p / q) / 2^k` to the nearest integer, ties to even. -/
def roundMantissa (p q : Nat) (k : Int) : Nat :=
  let nd : Nat × Nat :=
    match k with
    | Int.ofNat n => (p, q * 2 ^ n)
    | Int.negSucc n => (p * 2 ^ (n + 1), q)
  let m := nd.1 / nd.2
  let r := nd.1 % nd.2
  if 2 * r < nd.2 then m
  else if nd.2 < 2 * r then m + 1
  else if m % 2 = 0 then m else m + 1

/-- Makes the mantissa odd, moving factors of two into the exponent. -/
def stripTwos : Nat → Nat → Int → Nat × Int
  | 0, m, k => (m, k)
  | f + 1, m, k => if m % 2 = 0 ∧ m ≠ 0 then stripTwos f (m / 2) (k + 1) else (m, k)

/-- The `float64` nearest to `(-1)^neg * p / q` (`p, q ≥ 1`), as a
canonical `(m, k)` pair, or `none` when the value falls out of the
`float64` range (overflow to infinity, or underflow of a non-zero value
to zero) — in which case `strconv.ParseFloat` reports a range error and
`json.Unmarshal` fails. -/
def f64ofPQ (neg : Bool) (p q : Nat) : Option (Int × Int) :=
  let e := ratLog2 p q
  let k := max (e - 52) (-1074)
  let m := roundMantissa p q k
  if m = 0 then none
  else if pow2Le 1 (1024 - k) m then none
  else
    let c := stripTwos m m k
    some (if neg then (-(c.1 : Int), c.2) else ((c.1 : Int), c.2))

/-- The `float64` value of the decimal `(-1)^neg * mant10 * 10^exp10`
(what a JSON number literal denotes), canonically represented. -/
def f64ofDecimal (neg : Bool) (mant10 : Nat) (exp10 : Int) : Option (Int × Int) :=
  if mant10 = 0 then some (0, 0)
  else
    match exp10 with
    | Int.ofNat n => f64ofPQ neg (mant10 * 10 ^ n) 1
    | Int.negSucc n => f64ofPQ neg mant10 (10 ^ (n + 1))

/-! ### `json.Marshal` on the modelled fragment -/

/-- Lowercase hexadecimal digit, as Go's JSON `\u00xx` escapes use. -/
def hexChar (n : Nat) : Char :=
  "0123456789abcdef".data.getD n '0'

/-- One character of Go's JSON string encoding, with the default HTML
escaping of `<`, `>`, `&` that `json.Marshal` applies. -/
def jsonEscapeChar (c : Char) : List Char :=
  if c = '"' then ['\\', '"']
  else if c = '\\' then ['\\', '\\']
  else if c = '\n' then ['\\', 'n']
  else if c = '\r' then ['\\', 'r']
  else if c = '\t' then ['\\', 't']
  else if c = '<' ∨ c = '>' ∨ c = '&' ∨ c.toNat < 0x20 then
    ['\\', 'u', '0', '0', hexChar (c.toNat / 16), hexChar (c.toNat % 16)]
  else if c.toNat = 0x2028 ∨ c.toNat = 0x2029 then
    ['\\', 'u', '2', '0', '2', hexChar (c.toNat % 16)]
  else [c]

/-- A JSON string literal for `s` (quotes included). -/
def jsonQuote (s : String) : List Char :=
  '"' :: s.data.flatMap jsonEscapeChar ++ ['"']

/-- The text `json.Marshal` produces for the float64 `m * 2^k`.  Only
integral float64 values of magnitude below `2^53` are in the modelled
fragment (these print as their exact decimal digits); other floats
(which never arise in this development) make the marshalling step fail
instead of being modelled unfaithfully. -/
def floatToJson (m k : Int) : Option (List Char) :=
  if m = 0 then some ['0']
  else if 0 ≤ k ∧ m.natAbs * 2 ^ k.toNat ≤ 2 ^ 53 then
    some (toString (m * 2 ^ k.toNat)).data
  else none

/-- Comma-joins already-rendered pieces. -/
def joinComma (l : List (List Char)) : List Char :=
  (l.intersperse [',']).flatten

mutual
/-- `json.Marshal` of a Go value (object keys are emitted in the
represented — sorted — order). -/
def jsonMarshal : GoVal → Option (List Char)
  | GoVal.null => some "null".data
  | GoVal.bool b => some (if b then "true".data else "false".data)
  | GoVal.str s => some (jsonQuote s)
  | GoVal.int n => some (toString n).data
  | GoVal.float m k => floatToJson m k
  | GoVal.arr xs => (jsonMarshalList xs).map (fun es => '[' :: joinComma es ++ [']'])
  | GoVal.obj kvs => (jsonMarshalFields kvs).map (fun es => '{' :: joinComma es ++ ['}'])
def jsonMarshalList : GoVals → Option (List (List Char))
  | GoVals.nil => some []
  | GoVals.cons v rest => do
    let a ← jsonMarshal v
    let b ← jsonMarshalList rest
    pure (a :: b)
def jsonMarshalFields : GoFields → Option (List (List Char))
  | GoFields.nil => some []
  | GoFields.cons k v rest => do
    let a ← jsonMarshal v
    let b ← jsonMarshalFields rest
    pure ((jsonQuote k ++ ':' :: a) :: b)
end

/-! ### `json.Unmarshal` into `interface\x7b\x7d` on the modelled fragment

A strict JSON parser: numbers are decoded through `f64ofDecimal`
(`float64`, as plain `json.Unmarshal` does — the decoder's `UseNumber`
mode is *not* enabled in `substitutor.go`), object keys are inserted
into the key-sorted field list with a later duplicate key overwriting an
earlier one, and trailing non-whitespace input is an error. -/

def isWS (c : Char) : Bool :=
  c = ' ' ∨ c = '\t' ∨ c = '\n' ∨ c = '\r'

def skipWS (cs : List Char) : List Char :=
  cs.dropWhile isWS

def isDigit (c : Char) : Bool :=
  48 ≤ c.toNat ∧ c.toNat ≤ 57

def digitsToNat (ds : List Char) : Nat :=
  ds.foldl (fun a c => a * 10 + (c.toNat - 48)) 0

def hexVal (c : Char) : Option Nat :=
  if 48 ≤ c.toNat ∧ c.toNat ≤ 57 then some (c.toNat - 48)
  else if 97 ≤ c.toNat ∧ c.toNat ≤ 102 then some (c.toNat - 87)
  else if 65 ≤ c.toNat ∧ c.toNat ≤ 70 then some (c.toNat - 55)
  else none

def parseHex4 : List Char → Option (Nat × List Char)
  | a :: b :: c :: d :: rest => do
    let x ← hexVal a
    let y ← hexVal b
    let z ← hexVal c
    let w ← hexVal d
    pure (((x * 16 + y) * 16 + z) * 16 + w, rest)
  | _ => none

/-- Bytewise (= code-point-wise) string order, Go's `<` on strings used
by `json.Marshal` to sort object keys. -/
def charListLt : List Char → List Char → Bool
  | [], [] => false
  | [], _ :: _ => true
  | _ :: _, [] => false
  | a :: as, b :: bs =>
    if a.toNat < b.toNat then true
    else if b.toNat < a.toNat then false
    else charListLt as bs

/-- Inserts a field into a key-sorted field list; an existing entry with
the same key is overwritten (Go map assignment). -/
def insertField (k : String) (v : GoVal) : GoFields → GoFields
  | GoFields.nil => GoFields.cons k v GoFields.nil
  | GoFields.cons k2 v2 rest =>
    if k = k2 then GoFields.cons k v rest
    else if charListLt k.data k2.data then GoFields.cons k v (GoFields.cons k2 v2 rest)
    else GoFields.cons k2 v2 (insertField k v rest)

/-- Parses the body of a JSON string literal (after the opening quote),
including escapes; unpaired surrogate escapes decode to U+FFFD as in Go. -/
def parseStrFuel : Nat → List Char → Option (List Char × List Char)
  | 0, _ => none
  | f + 1, cs =>
    match cs with
    | [] => none
    | c :: rest =>
      if c = '"' then some ([], rest)
      else if c = '\\' then
        match rest with
        | [] => none
        | e :: rest2 =>
          if e = 'u' then
            match parseHex4 rest2 with
            | none => none
            | some (n, rest3) =>
              if 0xD800 ≤ n ∧ n < 0xDC00 then
                match rest3 with
                | '\\' :: 'u' :: rest4 =>
                  match parseHex4 rest4 with
                  | some p =>
                    if 0xDC00 ≤ p.1 ∧ p.1 < 0xE000 then
                      (parseStrFuel f p.2).map (fun q =>
                        (Char.ofNat (0x10000 + (n - 0xD800) * 0x400 + (p.1 - 0xDC00)) :: q.1, q.2))
                    else (parseStrFuel f rest3).map (fun q => (Char.ofNat 0xFFFD :: q.1, q.2))
                  | none => (parseStrFuel f rest3).map (fun q => (Char.ofNat 0xFFFD :: q.1, q.2))
                | _ => (parseStrFuel f rest3).map (fun q => (Char.ofNat 0xFFFD :: q.1, q.2))
              else if 0xDC00 ≤ n ∧ n < 0xE000 then
                (parseStrFuel f rest3).map (fun q => (Char.ofNat 0xFFFD :: q.1, q.2))
              else
                (parseStrFuel f rest3).map (fun q => (Char.ofNat n :: q.1, q.2))
          else
            match (if e = '"' then some '"'
                   else if e = '\\' then some '\\'
                   else if e = '/' then some '/'
                   else if e = 'b' then some (Char.ofNat 8)
                   else if e = 'f' then some (Char.ofNat 12)
                   else if e = 'n' then some '\n'
                   else if e = 'r' then some '\r'
                   else if e = 't' then some '\t'
                   else none) with
            | some d => (parseStrFuel f rest2).map (fun q => (d :: q.1, q.2))
            | none => none
      else if c.toNat < 0x20 then none
      else (parseStrFuel f rest).map (fun q => (c :: q.1, q.2))

/-- Parses a JSON number literal: `-? (0 | [1-9][0-9]*) (. [0-9]+)?
([eE] [+-]? [0-9]+)?`, returning sign, decimal mantissa and decimal
exponent (so the literal's exact value is `(-1)^neg * mant10 * 10^exp10`). -/
def parseNumber (cs : List Char) : Option ((Bool × Nat × Int) × List Char) :=
  let sp : Bool × List Char := match cs with | '-' :: r => (true, r) | _ => (false, cs)
  let ipp := sp.2.span isDigit
  if ipp.1 = [] then none
  else if ipp.1.headD '0' = '0' ∧ 1 < ipp.1.length then none
  else
    let fpp : Option (List Char × List Char) :=
      match ipp.2 with
      | '.' :: r2 =>
        let q := r2.span isDigit
        if q.1 = [] then none else some q
      | r2 => some ([], r2)
    match fpp with
    | none => none
    | some fp =>
      let epp : Option (Int × List Char) :=
        match fp.2 with
        | 'e' :: r3 =>
          (match r3 with
           | '+' :: r4 => (let d := r4.span isDigit
                           if d.1 = [] then none else some ((digitsToNat d.1 : Int), d.2))
           | '-' :: r4 => (let d := r4.span isDigit
                           if d.1 = [] then none else some (-(digitsToNat d.1 : Int), d.2))
           | r4 => (let d := r4.span isDigit
                    if d.1 = [] then none else some ((digitsToNat d.1 : Int), d.2)))
        | 'E' :: r3 =>
          (match r3 with
           | '+' :: r4 => (let d := r4.span isDigit
                           if d.1 = [] then none else some ((digitsToNat d.1 : Int), d.2))
           | '-' :: r4 => (let d := r4.span isDigit
                           if d.1 = [] then none else some (-(digitsToNat d.1 : Int), d.2))
           | r4 => (let d := r4.span isDigit
                    if d.1 = [] then none else some ((digitsToNat d.1 : Int), d.2)))
        | r3 => some (0, r3)
      match epp with
      | none => none
      | some ep =>
        some ((sp.1, digitsToNat (ipp.1 ++ fp.1), ep.1 - (fp.1.length : Int)), ep.2)

mutual
def parseVal : Nat → List Char → Option (GoVal × List Char)
  | 0, _ => none
  | f + 1, cs =>
    match skipWS cs with
    | [] => none
    | c :: rest =>
      if c = 'n' then
        match rest with
        | 'u' :: 'l' :: 'l' :: r => some (GoVal.null, r)
        | _ => none
      else if c = 't' then
        match rest with
        | 'r' :: 'u' :: 'e' :: r => some (GoVal.bool true, r)
        | _ => none
      else if c = 'f' then
        match rest with
        | 'a' :: 'l' :: 's' :: 'e' :: r => some (GoVal.bool false, r)
        | _ => none
      else if c = '"' then
        (parseStrFuel (rest.length + 1) rest).map (fun p => (GoVal.str (String.mk p.1), p.2))
      else if c = '[' then
        match skipWS rest with
        | ']' :: r => some (GoVal.arr GoVals.nil, r)
        | _ => (parseElems f rest).map (fun p => (GoVal.arr p.1, p.2))
      else if c = '{' then
        match skipWS rest with
        | '}' :: r => some (GoVal.obj GoFields.nil, r)
        | _ => (parseFields f GoFields.nil rest).map (fun p => (GoVal.obj p.1, p.2))
      else
        (parseNumber (c :: rest)).bind (fun p =>
          match f64ofDecimal p.1.1 p.1.2.1 p.1.2.2 with
          | some mk => some (GoVal.float mk.1 mk.2, p.2)
          | none => none)
def parseElems : Nat → List Char → Option (GoVals × List Char)
  | 0, _ => none
  | f + 1, cs => do
    let p ← parseVal f cs
    match skipWS p.2 with
    | ',' :: r2 => (parseElems f r2).map (fun q => (GoVals.cons p.1 q.1, q.2))
    | ']' :: r2 => some (GoVals.cons p.1 GoVals.nil, r2)
    | _ => none
def parseFields : Nat → GoFields → List Char → Option (GoFields × List Char)
  | 0, _, _ => none
  | f + 1, acc, cs =>
    match skipWS cs with
    | '"' :: r0 => do
      let kp ← parseStrFuel (r0.length + 1) r0
      match skipWS kp.2 with
      | ':' :: r2 => do
        let vp ← parseVal f r2
        match skipWS vp.2 with
        | ',' :: r4 => parseFields f (insertField (String.mk kp.1) vp.1 acc) r4
        | '}' :: r4 => some (insertField (String.mk kp.1) vp.1 acc, r4)
        | _ => none
      | _ => none
    | _ => none
end

/-- `json.Unmarshal(data, &result)` for `result : interface\x7b\x7d`:
parses one JSON value and rejects trailing non-whitespace input. -/
def jsonUnmarshal (cs : List Char) : Option GoVal :=
  match parseVal (2 * cs.length + 4) cs with
  | some p => if skipWS p.2 = [] then some p.1 else none
  | none => none

/-! ### `ApplyToBody` -/

def strOf : GoVal → Option String
  | GoVal.str s => some s
  | _ => none

/-- The `jsonVars` map built by `ApplyToBody`: every variable value is
escaped as an embedded JSON string fragment — `json.Marshal` of the
string with the surrounding quotes stripped. -/
def jsonVarsOf (vars : List (String × String)) : List (String × String) :=
  vars.map (fun kv => (kv.1, String.mk (kv.2.data.flatMap jsonEscapeChar)))

/-- The final step of `ApplyToBody`: `json.Unmarshal` of the substituted
text (the error text stands for the wrapped unmarshalling error). -/
def decodeAfterSub (cs : List Char) : Except String (Option GoVal) :=
  match jsonUnmarshal cs with
  | none => Except.error "body unmarshalling after substitution failed"
  | some r => Except.ok (some r)

/-- `Substitutor.ApplyToBody` from `substitutor.go`: `nil` passes
through; a string body is substituted directly; every other body is
marshalled to JSON text, substituted textually (against the escaped
variables), and unmarshalled again — unconditionally, whether or not the
body contains any placeholder. -/
def applyToBody (body : Option GoVal) (vars : List (String × String)) :
    Except String (Option GoVal) :=
  match body with
  | none => Except.ok none
  | some v =>
    match strOf v with
    | some s =>
      match substitute s vars with
      | Except.error e => Except.error ("body substitution failed: " ++ e)
      | Except.ok r => Except.ok (some (GoVal.str r))
    | none =>
      match jsonMarshal v with
      | none => Except.error "body marshalling failed"
      | some raw =>
        match substitute (String.mk raw) (jsonVarsOf vars) with
        | Except.error e => Except.error ("body substitution failed: " ++ e)
        | Except.ok sub => decodeAfterSub sub.data

/-! ### Concrete bodies for the numeric-fidelity claims

`9007199254740993 = 2^53 + 1` is the first integer no `float64` can
represent; its nearest `float64` is `2^53 = 9007199254740992`, i.e. the
canonical pair `(1, 53)`.  The bodies below are what the repository's
own tests (`TestApplyToBody_NoPlaceholders_PreservesOriginalTypes`,
`TestApplyToBody_LargeIntegerPreservedAfterSubstitution`) feed to
`ApplyToBody`. -/

/-- `map[string]interface\x7b\x7d\x7b"id": int64(9007199254740993), "name": "alice"\x7d`,
a structured body with no placeholder anywhere. -/
def bigIntBody : GoVal :=
  GoVal.obj (GoFields.cons "id" (GoVal.int 9007199254740993)
    (GoFields.cons "name" (GoVal.str "alice") GoFields.nil))

/-- What `ApplyToBody` actually returns for `bigIntBody`: the JSON
round-trip decodes both numbers as `float64`, so `id` comes back as the
float64 `1 * 2^53 = 9007199254740992`. -/
def bigIntBodyDecoded : GoVal :=
  GoVal.obj (GoFields.cons "id" (GoVal.float 1 53)
    (GoFields.cons "name" (GoVal.str "alice") GoFields.nil))

/-- A structured body with one placeholder and a large integer in a
sibling field. -/
def bigIntPhBody : GoVal :=
  GoVal.obj (GoFields.cons "user" (GoVal.str "$\x7buser\x7d")
    (GoFields.cons "user_id" (GoVal.int 9007199254740993) GoFields.nil))

/-- What `ApplyToBody` actually returns for `bigIntPhBody` with
`user = "bob"`. -/
def bigIntPhDecoded : GoVal :=
  GoVal.obj (GoFields.cons "user" (GoVal.str "bob")
    (GoFields.cons "user_id" (GoVal.float 1 53) GoFields.nil))

/-- The result the spec (and the repository's tests) require: the
substitution applied and the sibling integer's decimal text preserved. -/
def bigIntPhExpected : GoVal :=
  GoVal.obj (GoFields.cons "user" (GoVal.str "bob")
    (GoFields.cons "user_id" (GoVal.int 9007199254740993) GoFields.nil))

/-! ### Claims C1, C2 -/

/-- C1 (evidence of a code bug): on a structured body whose JSON text
contains no placeholder anywhere, `ApplyToBody` does *not* return the
body unchanged: it unconditionally marshals, substitutes and
unmarshals, so the `int64` field `id = 2^53 + 1` comes back as the
`float64` `2^53` — the repository's own test
`TestApplyToBody_NoPlaceholders_PreservesOriginalTypes` requires the
input back as-is and fails on this code. -/
theorem applyToBody_noPlaceholder_not_identity :
    (jsonMarshal bigIntBody).map (fun l => placeholders (String.mk l)) = some [] ∧
    applyToBody (some bigIntBody) [] = Except.ok (some bigIntBodyDecoded) ∧
    bigIntBodyDecoded ≠ bigIntBody :=
  ⟨rfl, rfl, by simp [bigIntBodyDecoded, bigIntBody]⟩

/-- C2 (evidence of a code bug): after a successful substitution in a
structured body, the re-parse uses the plain `json.Unmarshal` decoding
(binary `float64`), not a decimal-text-preserving representation: the
sibling literal `9007199254740993` re-marshals as `9007199254740992`,
so its decimal text does not round-trip — contradicting the spec and
the test `TestApplyToBody_WithPlaceholders_NumbersAreJsonNumber`. -/
theorem applyToBody_reparse_not_decimal_preserving :
    applyToBody (some bigIntPhBody) [("user", "bob")] =
      Except.ok (some bigIntPhDecoded) ∧
    bigIntPhDecoded ≠ bigIntPhExpected ∧
    (jsonMarshal bigIntPhDecoded).map String.mk =
      some "\x7b\"user\":\"bob\",\"user_id\":9007199254740992\x7d" ∧
    (jsonMarshal bigIntPhExpected).map String.mk =
      some "\x7b\"user\":\"bob\",\"user_id\":9007199254740993\x7d" :=
  ⟨rfl, by simp [bigIntPhDecoded, bigIntPhExpected], rfl, rfl⟩

/-! ## Steps, and a store model for Go's mutable `map[string]string`

A Go `map[string]string` value is a reference into a heap.  `SStore`
is that heap: a list of association lists, a map reference being an
index into it.  `make(map...)` allocates a fresh index; `m[k] = v`
updates the entry at an index.  A nil map is `none`, a non-nil
reference is `some id`.  This lets the no-mutation claim be stated as a
real frame property: `ApplyToStep` writes only to indices it allocates
itself, so every pre-existing index keeps its contents. -/

structure SStore where
  maps : List (List (String × String))

def storeGet (st : SStore) (id : Nat) : List (String × String) :=
  st.maps.getD id []

def storeAlloc (st : SStore) : SStore × Nat :=
  (⟨st.maps ++ [[]]⟩, st.maps.length)

/-- Go map assignment `m[k] = v` on an association list. -/
def updateAssoc (l : List (String × String)) (k v : String) : List (String × String) :=
  match l with
  | [] => [(k, v)]
  | (k2, v2) :: rest => if k2 = k then (k, v) :: rest else (k2, v2) :: updateAssoc rest k v

def storeSet (st : SStore) (id : Nat) (k v : String) : SStore :=
  ⟨st.maps.set id (updateAssoc (storeGet st id) k v)⟩

/-- `NextStep` from `scenario.go`.  The Go `map[string]string` of
mappings is iterated by the validator; it is modelled as a list of
pairs in a fixed order (Go's iteration order is unspecified, which can
only affect *which* of several bad mappings of one step is reported,
not which step reports first). -/
structure NextStep where
  request : String
  statusCodes : List String
  map : List (String × String)

/-- `Step` from `scenario.go`.  `delay` is a `time.Duration`, an `int64`
count of nanoseconds. -/
structure Step where
  request : String
  headers : Option Nat
  query : Option Nat
  pathParams : Option Nat
  body : Option GoVal
  delay : Int
  saveToContext : Option Nat
  nextSteps : List NextStep

/-- `Substitutor.ApplyToURL`. -/
def applyToURL (url : String) (vars : List (String × String)) : Except String String :=
  match substitute url vars with
  | Except.error e => Except.error ("url substitution failed: " ++ e)
  | Except.ok r => Except.ok r

/-- The shared loop body of `ApplyToHeaders` / `ApplyToQuery`: iterate
the entries of the input map, substitute each value, and write it into
the freshly allocated map `nid`; the first failing entry aborts with
the labelled error (`label` is `"header"` or `"query param"`).  Go's
map iteration order is unspecified; the model iterates the association
list in order, which fixes only which failing key is reported. -/
def applyMapEntries (label : String) (vars : List (String × String)) :
    SStore → Nat → List (String × String) → SStore × Option String
  | st, _, [] => (st, none)
  | st, nid, (k, v) :: rest =>
    match substitute v vars with
    | Except.error e =>
      (st, some (label ++ " " ++ goQuote k ++ " substitution failed: " ++ e))
    | Except.ok r => applyMapEntries label vars (storeSet st nid k r) nid rest

/-- `Substitutor.ApplyToHeaders` on a non-nil map reference:
`result := make(map[string]string)` allocates, the loop fills it. -/
def applyToHeaders (st : SStore) (h : Nat) (vars : List (String × String)) :
    SStore × Except String Nat :=
  match applyMapEntries "header" vars (storeAlloc st).1 (storeAlloc st).2 (storeGet st h) with
  | (st2, some e) => (st2, Except.error e)
  | (st2, none) => (st2, Except.ok (storeAlloc st).2)

/-- `Substitutor.ApplyToQuery` on a non-nil map reference. -/
def applyToQuery (st : SStore) (q : Nat) (vars : List (String × String)) :
    SStore × Except String Nat :=
  match applyMapEntries "query param" vars (storeAlloc st).1 (storeAlloc st).2 (storeGet st q) with
  | (st2, some e) => (st2, Except.error e)
  | (st2, none) => (st2, Except.ok (storeAlloc st).2)

/-- The request stage of `ApplyToStep`: `strings.SplitN(step.Request,
" ", 2)`; only when there are two parts is the path substituted and the
request rebuilt — otherwise the request passes through untouched. -/
def applyReqPart (step : Step) (vars : List (String × String)) : Except String String :=
  match splitN2 step.request ' ' with
  | [m, p] =>
    (match applyToURL p vars with
     | Except.error e => Except.error ("request path substitution failed: " ++ e)
     | Except.ok sp => Except.ok (m ++ " " ++ sp))
  | _ => Except.ok step.request

/-- The headers stage: skipped for a nil map; otherwise the new store
and the new map reference (or the error) from `ApplyToHeaders`. -/
def applyHeadersPart (st : SStore) (ho : Option Nat) (vars : List (String × String)) :
    SStore × Except String (Option Nat) :=
  match ho with
  | none => (st, Except.ok none)
  | some h => ((applyToHeaders st h vars).1, (applyToHeaders st h vars).2.map some)

/-- The query stage: skipped for a nil map. -/
def applyQueryPart (st : SStore) (qo : Option Nat) (vars : List (String × String)) :
    SStore × Except String (Option Nat) :=
  match qo with
  | none => (st, Except.ok none)
  | some q => ((applyToQuery st q vars).1, (applyToQuery st q vars).2.map some)

/-- The path-params stage: `ApplyToQuery` with the extra
`path_params substitution failed` wrapping, skipped for a nil map. -/
def applyPathPart (st : SStore) (po : Option Nat) (vars : List (String × String)) :
    SStore × Except String (Option Nat) :=
  match po with
  | none => (st, Except.ok none)
  | some p =>
    ((applyToQuery st p vars).1,
     ((applyToQuery st p vars).2.mapError
        (fun e => "path_params substitution failed: " ++ e)).map some)

/-- `Substitutor.ApplyToStep`: `result := step` copies the struct, then
each present field is replaced by a freshly substituted copy; the input
step's own map references are only ever read.  On error Go returns
`(Step\x7b\x7d, err)`; the model returns the error alone (callers never use
the zero Step). -/
def applyToStep (st : SStore) (step : Step) (vars : List (String × String)) :
    SStore × Except String Step :=
  match applyReqPart step vars with
  | Except.error e => (st, Except.error e)
  | Except.ok newReq =>
    match applyHeadersPart st step.headers vars with
    | (st1, Except.error e) => (st1, Except.error e)
    | (st1, Except.ok newH) =>
      match applyQueryPart st1 step.query vars with
      | (st2, Except.error e) => (st2, Except.error e)
      | (st2, Except.ok newQ) =>
        match applyPathPart st2 step.pathParams vars with
        | (st3, Except.error e) => (st3, Except.error e)
        | (st3, Except.ok newP) =>
          match applyToBody step.body vars with
          | Except.error e => (st3, Except.error e)
          | Except.ok newB =>
            (st3, Except.ok { step with
              request := newReq
              headers := newH
              query := newQ
              pathParams := newP
              body := newB })

/-! ### Frame lemmas: `ApplyToStep` never writes to a pre-existing map -/

theorem storeGet_alloc (st : SStore) (id : Nat) (hid : id < st.maps.length) :
    storeGet (storeAlloc st).1 id = storeGet st id := by
  simp [storeGet, storeAlloc, List.getD, List.getElem?_append, hid]

theorem storeGet_set_ne (st : SStore) (nid id : Nat) (k v : String) (h : id ≠ nid) :
    storeGet (storeSet st nid k v) id = storeGet st id := by
  simp [storeGet, storeSet, List.getD, List.getElem?_set_ne (Ne.symm h)]

theorem storeSet_length (st : SStore) (nid : Nat) (k v : String) :
    (storeSet st nid k v).maps.length = st.maps.length := by
  simp [storeSet]

theorem applyMapEntries_frame (label : String) (vars : List (String × String)) :
    ∀ (entries : List (String × String)) (st : SStore) (nid id : Nat), id ≠ nid →
      storeGet (applyMapEntries label vars st nid entries).1 id = storeGet st id := by
  intro entries
  induction entries with
  | nil => intro st nid id h; rfl
  | cons kv rest ih =>
    intro st nid id h
    obtain ⟨k, v⟩ := kv
    cases hs : substitute v vars with
    | error e => simp [applyMapEntries, hs]
    | ok r =>
      simp only [applyMapEntries, hs]
      rw [ih _ _ _ h, storeGet_set_ne _ _ _ _ _ h]

theorem applyMapEntries_length (label : String) (vars : List (String × String)) :
    ∀ (entries : List (String × String)) (st : SStore) (nid : Nat),
      ((applyMapEntries label vars st nid entries).1).maps.length = st.maps.length := by
  intro entries
  induction entries with
  | nil => intro st nid; rfl
  | cons kv rest ih =>
    intro st nid
    obtain ⟨k, v⟩ := kv
    cases hs : substitute v vars with
    | error e => simp [applyMapEntries, hs]
    | ok r =>
      simp only [applyMapEntries, hs]
      rw [ih, storeSet_length]

theorem applyToHeaders_frame (st : SStore) (h : Nat) (vars : List (String × String))
    (id : Nat) (hid : id < st.maps.length) :
    storeGet (applyToHeaders st h vars).1 id = storeGet st id := by
  have hal : (storeAlloc st).2 = st.maps.length := rfl
  have hfr : storeGet (applyMapEntries "header" vars (storeAlloc st).1 (storeAlloc st).2
      (storeGet st h)).1 id = storeGet st id := by
    rw [hal, applyMapEntries_frame "header" vars _ _ _ _ (Nat.ne_of_lt hid)]
    exact storeGet_alloc st id hid
  unfold applyToHeaders
  rcases hres : applyMapEntries "header" vars (storeAlloc st).1 (storeAlloc st).2 (storeGet st h)
    with ⟨st2, r⟩
  rw [hres] at hfr
  try rw [hres]
  cases r <;> simpa using hfr

theorem applyToHeaders_length (st : SStore) (h : Nat) (vars : List (String × String)) :
    ((applyToHeaders st h vars).1).maps.length = st.maps.length + 1 := by
  have hlen : ((applyMapEntries "header" vars (storeAlloc st).1 (storeAlloc st).2
      (storeGet st h)).1).maps.length = st.maps.length + 1 := by
    rw [applyMapEntries_length]
    simp [storeAlloc]
  unfold applyToHeaders
  rcases hres : applyMapEntries "header" vars (storeAlloc st).1 (storeAlloc st).2 (storeGet st h)
    with ⟨st2, r⟩
  rw [hres] at hlen
  try rw [hres]
  cases r <;> simpa using hlen

theorem applyToQuery_frame (st : SStore) (q : Nat) (vars : List (String × String))
    (id : Nat) (hid : id < st.maps.length) :
    storeGet (applyToQuery st q vars).1 id = storeGet st id := by
  have hal : (storeAlloc st).2 = st.maps.length := rfl
  have hfr : storeGet (applyMapEntries "query param" vars (storeAlloc st).1 (storeAlloc st).2
      (storeGet st q)).1 id = storeGet st id := by
    rw [hal, applyMapEntries_frame "query param" vars _ _ _ _ (Nat.ne_of_lt hid)]
    exact storeGet_alloc st id hid
  unfold applyToQuery
  rcases hres : applyMapEntries "query param" vars (storeAlloc st).1 (storeAlloc st).2 (storeGet st q)
    with ⟨st2, r⟩
  rw [hres] at hfr
  try rw [hres]
  cases r <;> simpa using hfr

theorem applyToQuery_length (st : SStore) (q : Nat) (vars : List (String × String)) :
    ((applyToQuery st q vars).1).maps.length = st.maps.length + 1 := by
  have hlen : ((applyMapEntries "query param" vars (storeAlloc st).1 (storeAlloc st).2
      (storeGet st q)).1).maps.length = st.maps.length + 1 := by
    rw [applyMapEntries_length]
    simp [storeAlloc]
  unfold applyToQuery
  rcases hres : applyMapEntries "query param" vars (storeAlloc st).1 (storeAlloc st).2 (storeGet st q)
    with ⟨st2, r⟩
  rw [hres] at hlen
  try rw [hres]
  cases r <;> simpa using hlen

theorem applyHeadersPart_frame (st : SStore) (ho : Option Nat) (vars : List (String × String))
    (id : Nat) (hid : id < st.maps.length) :
    storeGet (applyHeadersPart st ho vars).1 id = storeGet st id ∧
    st.maps.length ≤ ((applyHeadersPart st ho vars).1).maps.length := by
  cases ho with
  | none => exact ⟨rfl, le_rfl⟩
  | some h =>
    refine ⟨applyToHeaders_frame st h vars id hid, ?_⟩
    show st.maps.length ≤ ((applyToHeaders st h vars).1).maps.length
    rw [applyToHeaders_length st h vars]
    omega

theorem applyQueryPart_frame (st : SStore) (qo : Option Nat) (vars : List (String × String))
    (id : Nat) (hid : id < st.maps.length) :
    storeGet (applyQueryPart st qo vars).1 id = storeGet st id ∧
    st.maps.length ≤ ((applyQueryPart st qo vars).1).maps.length := by
  cases qo with
  | none => exact ⟨rfl, le_rfl⟩
  | some q =>
    refine ⟨applyToQuery_frame st q vars id hid, ?_⟩
    show st.maps.length ≤ ((applyToQuery st q vars).1).maps.length
    rw [applyToQuery_length st q vars]
    omega

theorem applyPathPart_frame (st : SStore) (po : Option Nat) (vars : List (String × String))
    (id : Nat) (hid : id < st.maps.length) :
    storeGet (applyPathPart st po vars).1 id = storeGet st id ∧
    st.maps.length ≤ ((applyPathPart st po vars).1).maps.length := by
  cases po with
  | none => exact ⟨rfl, le_rfl⟩
  | some p =>
    refine ⟨applyToQuery_frame st p vars id hid, ?_⟩
    show st.maps.length ≤ ((applyToQuery st p vars).1).maps.length
    rw [applyToQuery_length st p vars]
    omega

/-- C9: `ApplyToStep` leaves every pre-existing map in the store — in
particular the input step's `Headers`, `Query` and `PathParams` maps —
with exactly its previous contents, whether the call succeeds or fails
(all writes go to maps it freshly allocates); the input `Step` record
itself is passed by value and `ApplyToBody` only reads the body. -/
theorem applyToStep_no_mutation (st : SStore) (step : Step) (vars : List (String × String))
    (id : Nat) (hid : id < st.maps.length) :
    storeGet (applyToStep st step vars).1 id = storeGet st id := by
  unfold applyToStep
  split
  · rfl
  · rename_i newReq heq0
    obtain ⟨hf1, hl1⟩ := applyHeadersPart_frame st step.headers vars id hid
    split
    · rename_i st1 e heq
      rw [heq] at hf1
      exact hf1
    · rename_i st1 newH heq
      rw [heq] at hf1 hl1
      have hid1 : id < st1.maps.length := lt_of_lt_of_le hid hl1
      obtain ⟨hf2, hl2⟩ := applyQueryPart_frame st1 step.query vars id hid1
      split
      · rename_i st2 e heq2
        rw [heq2] at hf2
        exact hf2.trans hf1
      · rename_i st2 newQ heq2
        rw [heq2] at hf2 hl2
        have hid2 : id < st2.maps.length := lt_of_lt_of_le hid1 hl2
        obtain ⟨hf3, hl3⟩ := applyPathPart_frame st2 step.pathParams vars id hid2
        split
        · rename_i st3 e heq3
          rw [heq3] at hf3
          exact hf3.trans (hf2.trans hf1)
        · rename_i st3 newP heq3
          rw [heq3] at hf3
          cases applyToBody step.body vars with
          | error e => exact hf3.trans (hf2.trans hf1)
          | ok newB => exact hf3.trans (hf2.trans hf1)

/-- C9 witness store and step: the repository's own
`TestApplyToStep_DoesNotMutateOriginal` scenario — one headers map
`\x7b"X-ID": "$\x7buser_id\x7d"\x7d` in the store, referenced by the step. -/
def mutStore : SStore := ⟨[[("X-ID", "$\x7buser_id\x7d")]]⟩

def mutStep : Step :=
  { request := "GET /users/$\x7buser_id\x7d"
    headers := some 0
    query := none
    pathParams := none
    body := none
    delay := 0
    saveToContext := none
    nextSteps := [] }

/-- C9 witness: after a successful `ApplyToStep` that substituted both
the URL and the headers, the original headers map is untouched. -/
theorem applyToStep_no_mutation_witness :
    (0 : Nat) < mutStore.maps.length ∧
    storeGet (applyToStep mutStore mutStep [("user_id", "7")]).1 0 = storeGet mutStore 0 :=
  ⟨by decide, applyToStep_no_mutation mutStore mutStep [("user_id", "7")] 0 (by decide)⟩

/-! ### C10: a request without a space is never substituted -/

/-- The error text of a result (empty for success). -/
def errTextOf : Except String Step → String
  | Except.error e => e
  | Except.ok _ => ""

/-- `p` is a prefix of `s` (character-wise). -/
def strHasPre (p s : String) : Bool :=
  p.data.isPrefixOf s.data

theorem isPrefixOf_ne_head {a b : Char} (h : a ≠ b) (as bs : List Char) :
    List.isPrefixOf (a :: as) (b :: bs) = false := by
  simp [List.isPrefixOf, beq_iff_eq, h]

theorem strHasPre_req_header (t : String) :
    strHasPre "request path substitution failed" ("header" ++ t) = false := by
  unfold strHasPre
  rw [show ("header" ++ t).data = 'h' :: ("eader" ++ t).data from rfl,
      show "request path substitution failed".data =
        'r' :: "equest path substitution failed".data from rfl]
  exact isPrefixOf_ne_head (by decide) _ _

theorem strHasPre_req_query (t : String) :
    strHasPre "request path substitution failed" ("query param" ++ t) = false := by
  unfold strHasPre
  rw [show ("query param" ++ t).data = 'q' :: ("uery param" ++ t).data from rfl,
      show "request path substitution failed".data =
        'r' :: "equest path substitution failed".data from rfl]
  exact isPrefixOf_ne_head (by decide) _ _

theorem strHasPre_req_path (t : String) :
    strHasPre "request path substitution failed" ("path_params" ++ t) = false := by
  unfold strHasPre
  rw [show ("path_params" ++ t).data = 'p' :: ("ath_params" ++ t).data from rfl,
      show "request path substitution failed".data =
        'r' :: "equest path substitution failed".data from rfl]
  exact isPrefixOf_ne_head (by decide) _ _

theorem strHasPre_req_body (t : String) :
    strHasPre "request path substitution failed" ("body" ++ t) = false := by
  unfold strHasPre
  rw [show ("body" ++ t).data = 'b' :: ("ody" ++ t).data from rfl,
      show "request path substitution failed".data =
        'r' :: "equest path substitution failed".data from rfl]
  exact isPrefixOf_ne_head (by decide) _ _

theorem breakAtChar_none (c : Char) :
    ∀ l : List Char, l.contains c = false → breakAtChar c l = none := by
  intro l
  induction l with
  | nil => intro _; rfl
  | cons d rest ih =>
    intro h
    simp at h
    rw [breakAtChar, if_neg (fun hd => h.1 hd.symm), ih (by simpa using h.2)]
    rfl

theorem splitN2_single (s : String) (h : s.data.contains ' ' = false) :
    splitN2 s ' ' = [s] := by
  unfold splitN2
  rw [breakAtChar_none ' ' s.data h]

theorem applyMapEntries_error_shape (label : String) (vars : List (String × String)) :
    ∀ (entries : List (String × String)) (st : SStore) (nid : Nat) (e : String),
      (applyMapEntries label vars st nid entries).2 = some e → ∃ t, e = label ++ t := by
  intro entries
  induction entries with
  | nil => intro st nid e h; exact absurd h (by simp [applyMapEntries])
  | cons kv rest ih =>
    intro st nid e h
    obtain ⟨k, v⟩ := kv
    cases hs : substitute v vars with
    | error e1 =>
      simp [applyMapEntries, hs] at h
      exact ⟨" " ++ goQuote k ++ " substitution failed: " ++ e1,
        by rw [← h]; simp [String.append_assoc]⟩
    | ok r =>
      simp only [applyMapEntries, hs] at h
      exact ih _ _ _ h

theorem applyToHeaders_error_shape (st : SStore) (h : Nat) (vars : List (String × String))
    (e : String) (heq : (applyToHeaders st h vars).2 = Except.error e) :
    ∃ t, e = "header" ++ t := by
  unfold applyToHeaders at heq
  rcases hres : applyMapEntries "header" vars (storeAlloc st).1 (storeAlloc st).2 (storeGet st h)
    with ⟨st2, r⟩
  rw [hres] at heq
  cases r with
  | none => exact absurd heq (by simp)
  | some e1 =>
    simp only at heq
    injection heq with heq
    subst heq
    exact applyMapEntries_error_shape "header" vars _ _ _ _ (by rw [hres])

theorem applyToQuery_error_shape (st : SStore) (q : Nat) (vars : List (String × String))
    (e : String) (heq : (applyToQuery st q vars).2 = Except.error e) :
    ∃ t, e = "query param" ++ t := by
  unfold applyToQuery at heq
  rcases hres : applyMapEntries "query param" vars (storeAlloc st).1 (storeAlloc st).2 (storeGet st q)
    with ⟨st2, r⟩
  rw [hres] at heq
  cases r with
  | none => exact absurd heq (by simp)
  | some e1 =>
    simp only at heq
    injection heq with heq
    subst heq
    exact applyMapEntries_error_shape "query param" vars _ _ _ _ (by rw [hres])

theorem applyHeadersPart_error_shape (st : SStore) (ho : Option Nat)
    (vars : List (String × String)) (st1 : SStore) (e : String)
    (heq : applyHeadersPart st ho vars = (st1, Except.error e)) :
    ∃ t, e = "header" ++ t := by
  cases ho with
  | none => exact absurd (congrArg Prod.snd heq) (by simp [applyHeadersPart])
  | some h =>
    have h2 := congrArg Prod.snd heq
    simp only [applyHeadersPart] at h2
    rw [exceptMap_eq_error] at h2
    exact applyToHeaders_error_shape st h vars e h2

theorem applyQueryPart_error_shape (st : SStore) (qo : Option Nat)
    (vars : List (String × String)) (st1 : SStore) (e : String)
    (heq : applyQueryPart st qo vars = (st1, Except.error e)) :
    ∃ t, e = "query param" ++ t := by
  cases qo with
  | none => exact absurd (congrArg Prod.snd heq) (by simp [applyQueryPart])
  | some q =>
    have h2 := congrArg Prod.snd heq
    simp only [applyQueryPart] at h2
    rw [exceptMap_eq_error] at h2
    exact applyToQuery_error_shape st q vars e h2

theorem exceptMapError_eq_error {α : Type} (f : String → String) (x : Except String α)
    (e : String) : x.mapError f = Except.error e ↔ ∃ e1, x = Except.error e1 ∧ e = f e1 := by
  cases x <;> simp [Except.mapError]
  exact eq_comm

theorem applyPathPart_error_shape (st : SStore) (po : Option Nat)
    (vars : List (String × String)) (st1 : SStore) (e : String)
    (heq : applyPathPart st po vars = (st1, Except.error e)) :
    ∃ t, e = "path_params" ++ t := by
  cases po with
  | none => exact absurd (congrArg Prod.snd heq) (by simp [applyPathPart])
  | some p =>
    have h2 := congrArg Prod.snd heq
    simp only [applyPathPart] at h2
    rw [exceptMap_eq_error, exceptMapError_eq_error] at h2
    obtain ⟨e1, _, he⟩ := h2
    exact ⟨" substitution failed: " ++ e1, by rw [he, ← String.append_assoc]; rfl⟩

theorem applyToBody_error_shape (body : Option GoVal) (vars : List (String × String))
    (e : String) (h : applyToBody body vars = Except.error e) : ∃ t, e = "body" ++ t := by
  cases body with
  | none => exact absurd h (by simp [applyToBody])
  | some v =>
    simp only [applyToBody] at h
    cases hsv : strOf v with
    | some s =>
      rw [hsv] at h
      simp only at h
      cases hsub : substitute s vars with
      | error e1 =>
        rw [hsub] at h
        injection h with h
        exact ⟨" substitution failed: " ++ e1, by rw [← h, ← String.append_assoc]; rfl⟩
      | ok r => rw [hsub] at h; exact absurd h (by simp)
    | none =>
      rw [hsv] at h
      simp only at h
      cases hm : jsonMarshal v with
      | none =>
        rw [hm] at h
        injection h with h
        exact ⟨" marshalling failed", by rw [← h]; rfl⟩
      | some raw =>
        rw [hm] at h
        simp only at h
        cases hsub : substitute (String.mk raw) (jsonVarsOf vars) with
        | error e1 =>
          rw [hsub] at h
          injection h with h
          exact ⟨" substitution failed: " ++ e1, by rw [← h, ← String.append_assoc]; rfl⟩
        | ok sub =>
          rw [hsub] at h
          simp only at h
          unfold decodeAfterSub at h
          cases hu : jsonUnmarshal sub.data with
          | none =>
            rw [hu] at h
            injection h with h
            exact ⟨" unmarshalling after substitution failed", by rw [← h]; rfl⟩
          | some r => rw [hu] at h; exact absurd h (by simp)

/-- C10: when the step's `Request` contains no space,
`strings.SplitN(request, " ", 2)` yields a single part, so `ApplyToStep`
performs no substitution on the request at all: any returned step keeps
the request verbatim (placeholders included), and any error comes from
another field, never from the request path. -/
theorem applyToStep_requestNoSpace (st : SStore) (step : Step)
    (vars : List (String × String)) (h : step.request.data.contains ' ' = false) :
    (applyToStep st step vars).2.map Step.request =
      (applyToStep st step vars).2.map (fun _ => step.request) ∧
    strHasPre "request path substitution failed"
      (errTextOf (applyToStep st step vars).2) = false := by
  have hreq : applyReqPart step vars = Except.ok step.request := by
    unfold applyReqPart
    rw [splitN2_single step.request h]
  unfold applyToStep
  split
  · rename_i e heq0
    rw [hreq] at heq0
    exact absurd heq0 (by simp)
  · rename_i newReq heq0
    rw [hreq] at heq0
    injection heq0 with heq0
    subst heq0
    split
    · rename_i st1 e heq
      obtain ⟨t, ht⟩ := applyHeadersPart_error_shape st step.headers vars st1 e heq
      subst ht
      exact ⟨rfl, strHasPre_req_header t⟩
    · rename_i st1 newH heq
      split
      · rename_i st2 e heq2
        obtain ⟨t, ht⟩ := applyQueryPart_error_shape st1 step.query vars st2 e heq2
        subst ht
        exact ⟨rfl, strHasPre_req_query t⟩
      · rename_i st2 newQ heq2
        split
        · rename_i st3 e heq3
          obtain ⟨t, ht⟩ := applyPathPart_error_shape st2 step.pathParams vars st3 e heq3
          subst ht
          exact ⟨rfl, strHasPre_req_path t⟩
        · rename_i st3 newP heq3
          cases hb : applyToBody step.body vars with
          | error e =>
            obtain ⟨t, ht⟩ := applyToBody_error_shape step.body vars e hb
            subst ht
            exact ⟨rfl, strHasPre_req_body t⟩
          | ok newB =>
            exact ⟨rfl, show strHasPre "request path substitution failed" "" = false by decide⟩

/-- C10 witness: a DELETE step whose request has no space and even
contains a placeholder: `ApplyToStep` succeeds with the request
untouched. -/
def noSpaceStep : Step :=
  { request := "DELETE/items/$\x7bid\x7d"
    headers := none
    query := none
    pathParams := none
    body := none
    delay := 0
    saveToContext := none
    nextSteps := [] }

theorem applyToStep_requestNoSpace_witness :
    noSpaceStep.request.data.contains ' ' = false ∧
    ((applyToStep ⟨[]⟩ noSpaceStep []).2.map Step.request =
       (applyToStep ⟨[]⟩ noSpaceStep []).2.map (fun _ => noSpaceStep.request) ∧
     strHasPre "request path substitution failed"
       (errTextOf (applyToStep ⟨[]⟩ noSpaceStep []).2) = false) :=
  ⟨by decide, applyToStep_requestNoSpace ⟨[]⟩ noSpaceStep [] (by decide)⟩

/-! ## The parser/validator (`parser.go`)

`Scenario` as decoded from YAML; `VirtualUsers` and `Duration` are
`uint64` (modelled as `Nat`, so the Go checks `<= 0` mean `= 0`). -/

structure Scenario where
  name : String
  baseURL : String
  virtualUsers : Nat
  duration : Nat
  -- the Go field is named `Variables`; `variables` is reserved in Lean
  initialVariables : List (String × String)
  steps : List Step

/-- `Scenario.FindStep`: first step whose request matches exactly. -/
def findStep (s : Scenario) (request : String) : Option Step :=
  s.steps.find? (fun st => st.request = request)

/-- `maxDelay = 10 * time.Minute`, in nanoseconds. -/
def maxDelay : Int := 600000000000

/-- `parseRequest` from `parser.go`. -/
def parseRequest (request : String) : Except String (String × String) :=
  if request = "" then Except.error "request cannot be empty"
  else
    match splitN2 request ' ' with
    | [m, p] =>
      if (["GET", "POST", "PUT", "PATCH", "DELETE", "HEAD"].contains m) = false then
        Except.error ("invalid HTTP method '" ++ m ++
          "', must be one of: [GET POST PUT PATCH DELETE HEAD]")
      else if (match p.data with | '/' :: _ => true | _ => false) = false then
        Except.error ("path must start with '/', got: " ++ p)
      else Except.ok (m, p)
    | _ =>
      Except.error ("invalid request format '" ++ request ++ "', expected 'METHOD /path'")

/-- `strconv.Atoi` (64-bit): optional sign, one or more decimal digits
(leading zeros allowed), value within `int64`; anything else errors. -/
def atoiParse (s : String) : Option Int :=
  let sp : Bool × List Char :=
    match s.data with
    | '+' :: r => (false, r)
    | '-' :: r => (true, r)
    | r => (false, r)
  if sp.2 = [] ∨ sp.2.all isDigit = false then none
  else
    let v : Int := if sp.1 then -(digitsToNat sp.2 : Int) else (digitsToNat sp.2 : Int)
    if v < -(2 ^ 63 : Int) ∨ (2 ^ 63 : Int) ≤ v then none else some v

/-- `validateStatusCode` from `parser.go`.  Go's `len(code) == 3 &&
code[1:] == "xx"` is on bytes; the model tests the same on characters —
the two agree on every string either side accepts (a 3-char wildcard
with first character `1`-`5` is pure ASCII), and both reject everything
else. -/
def validateStatusCode (code : String) : Except String Unit :=
  if code = "" then Except.error "status code cannot be empty"
  else if code.length = 3 ∧ code.data.drop 1 = ['x', 'x'] then
    (if (code.data.headD ' ').toNat < 49 ∨ 53 < (code.data.headD ' ').toNat then
       Except.error ("wildcard must be 1xx-5xx, got: " ++ code)
     else Except.ok ())
  else
    match atoiParse code with
    | none => Except.error ("invalid status code format '" ++ code ++ "'")
    | some n =>
      if n < 100 ∨ 600 ≤ n then
        Except.error ("status code must be 100-599, got: " ++ toString n)
      else Except.ok ()

def validSources : List String :=
  ["response", "headers", "query", "path_params", "body", "cookies", "variables"]

def validTargets : List String :=
  ["headers", "query", "path_params", "body", "cookies", "variables"]

/-- `validateMapping` from `parser.go`. -/
def validateMapping (source target : String) : Except String Unit :=
  match splitN2 source '.' with
  | [sp, _] =>
    if validSources.contains sp = false then
      Except.error ("invalid source '" ++ sp ++ "', must be one of: " ++
        "[response headers query path_params body cookies variables]")
    else
      match splitN2 target '.' with
      | [tp, _] =>
        if validTargets.contains tp = false then
          Except.error ("invalid target '" ++ tp ++ "', must be one of: " ++
            "[headers query path_params body cookies variables]")
        else Except.ok ()
      | _ =>
        Except.error ("invalid target format, expected 'target.field', got: " ++ target)
  | _ =>
    Except.error ("invalid source format, expected 'source.field', got: " ++ source)

/-- The `status_codes` loop of a next-step (`k` is the running index). -/
def checkStatusCodes (i j : Nat) : Nat → List String → Except String Unit
  | _, [] => Except.ok ()
  | k, code :: rest =>
    match validateStatusCode code with
    | Except.error e =>
      Except.error ("step[" ++ toString i ++ "], next_step[" ++ toString j ++
        "], status_code[" ++ toString k ++ "]: " ++ e)
    | Except.ok _ => checkStatusCodes i j (k + 1) rest

/-- The `map` loop of a next-step.  Go iterates the map in unspecified
order; the model iterates the association list in order — this can only
change which of several bad mappings *within one step* is reported. -/
def checkMappings (i j : Nat) : List (String × String) → Except String Unit
  | [] => Except.ok ()
  | (src, tgt) :: rest =>
    match validateMapping src tgt with
    | Except.error e =>
      Except.error ("step[" ++ toString i ++ "], next_step[" ++ toString j ++
        "]: invalid mapping '" ++ src ++ "' -> '" ++ tgt ++ "': " ++ e)
    | Except.ok _ => checkMappings i j rest

/-- The body of the `next_steps` loop. -/
def checkNextStep (scen : Scenario) (i j : Nat) (ns : NextStep) : Except String Unit :=
  if ns.request = "" then
    Except.error ("step[" ++ toString i ++ "], next_step[" ++ toString j ++
      "]: request field is required")
  else
    match parseRequest ns.request with
    | Except.error e =>
      Except.error ("step[" ++ toString i ++ "], next_step[" ++ toString j ++ "]: " ++ e)
    | Except.ok _ =>
      match findStep scen ns.request with
      | none =>
        Except.error ("step[" ++ toString i ++ "], next_step[" ++ toString j ++
          "]: target step '" ++ ns.request ++ "' not found")
      | some _ =>
        match checkStatusCodes i j 0 ns.statusCodes with
        | Except.error e => Except.error e
        | Except.ok _ => checkMappings i j ns.map

def checkNextSteps (scen : Scenario) (i : Nat) : Nat → List NextStep → Except String Unit
  | _, [] => Except.ok ()
  | j, ns :: rest =>
    match checkNextStep scen i j ns with
    | Except.error e => Except.error e
    | Except.ok _ => checkNextSteps scen i (j + 1) rest

/-- The body of the steps loop of `Parser.Validate`: all checks for the
step at index `i`, where `seen` holds the requests of the steps before
it (`uniqueRequests`). -/
def stepCheck (scen : Scenario) (seen : List String) (i : Nat) (step : Step) :
    Except String Unit :=
  if step.request = "" then
    Except.error ("step[" ++ toString i ++ "]: request field is required")
  else if seen.contains step.request then
    Except.error ("step[" ++ toString i ++ "]: duplicate request '" ++ step.request ++ "'")
  else
    match parseRequest step.request with
    | Except.error e => Except.error ("step[" ++ toString i ++ "]: " ++ e)
    | Except.ok mp =>
      if (mp.1 = "GET" ∨ mp.1 = "HEAD") ∧ step.body.isSome then
        Except.error ("step[" ++ toString i ++ "] (" ++ step.request ++
          "): GET and HEAD requests cannot have a body")
      else if step.delay < 0 then
        Except.error ("step[" ++ toString i ++ "] (" ++ step.request ++
          "): delay must be non-negative")
      else if maxDelay < step.delay then
        Except.error ("step[" ++ toString i ++ "] (" ++ step.request ++
          "): delay must not exceed 10m0s")
      else checkNextSteps scen i 0 step.nextSteps

/-- The steps loop of `Parser.Validate`, in declaration order, aborting
at the first failing step. -/
def validateSteps (scen : Scenario) : Nat → List String → List Step → Except String Unit
  | _, _, [] => Except.ok ()
  | i, seen, stp :: rest =>
    match stepCheck scen seen i stp with
    | Except.error e => Except.error e
    | Except.ok _ => validateSteps scen (i + 1) (seen ++ [stp.request]) rest

/-- The scenario-level checks and the steps loop of `Parser.Validate`,
for a loaded scenario. -/
def validateLoaded (sc : Scenario) : Except String Unit :=
  if sc.name = "" then Except.error "scenario.name is required"
  else if sc.baseURL = "" then Except.error "scenario.base_url is required"
  else if sc.virtualUsers ≤ 0 then
    Except.error "scenario.virtual_users must be greater than 0"
  else if sc.duration ≤ 0 then Except.error "scenario.duration must be greater than 0"
  else if 31556952 < sc.duration then
    Except.error "scenario.duration must be less than 1 year (31556952 seconds)"
  else if sc.steps.length = 0 then
    Except.error "scenario.steps: at least one step is required"
  else validateSteps sc 0 [] sc.steps

/-- `Parser.Validate` (`p.scenario` may be nil, hence the `Option`). -/
def validate (scen : Option Scenario) : Except String Unit :=
  match scen with
  | none => Except.error "no scenario loaded"
  | some sc => validateLoaded sc

/-- The requests of the first `i` steps, the validator's
`uniqueRequests` set when it reaches index `i`. -/
def prefixRequests (steps : List Step) (i : Nat) : List String :=
  (steps.take i).map (fun st => st.request)

/-! ### Claim C6: fail-fast validation in declaration order -/

theorem validateSteps_first_error (scen : Scenario) :
    ∀ (steps : List Step) (base : Nat) (seen : List String) (i : Nat) (hi : i < steps.length)
      (e : String),
      (∀ j (hj : j < i),
        stepCheck scen (seen ++ prefixRequests steps j) (base + j)
          (steps.get ⟨j, lt_trans hj hi⟩) = Except.ok ()) →
      stepCheck scen (seen ++ prefixRequests steps i) (base + i)
        (steps.get ⟨i, hi⟩) = Except.error e →
      validateSteps scen base seen steps = Except.error e := by
  intro steps
  induction steps with
  | nil => intro base seen i hi; exact absurd hi (by simp)
  | cons stp rest ih =>
    intro base seen i hi e hprev hfail
    cases i with
    | zero =>
      have h0 : stepCheck scen seen base stp = Except.error e := by
        simpa [prefixRequests] using hfail
      simp only [validateSteps, h0]
    | succ k =>
      have h0 : stepCheck scen seen base stp = Except.ok () := by
        simpa [prefixRequests] using hprev 0 (Nat.succ_pos k)
      simp only [validateSteps, h0]
      have hk : k < rest.length := by simpa using hi
      refine ih (base + 1) (seen ++ [stp.request]) k hk e ?_ ?_
      · intro j hj
        have := hprev (j + 1) (by omega)
        simpa [prefixRequests, List.take_succ_cons, Nat.add_assoc, Nat.add_comm 1 j,
          List.append_assoc] using this
      · simpa [prefixRequests, List.take_succ_cons, Nat.add_assoc, Nat.add_comm 1 k,
          List.append_assoc] using hfail

/-- C6: `Parser.Validate` walks steps in declaration order and reports
exactly the error of the first invalid step (its return type can carry
only one error): if the scenario-level checks pass, every step before
`i` passes its checks, and step `i` fails with `e`, the whole
validation returns exactly `e` — regardless of any later invalid
steps. -/
theorem validate_first_error (sc : Scenario) (i : Nat) (e : String)
    (hname : sc.name ≠ "") (hurl : sc.baseURL ≠ "")
    (hvu : 0 < sc.virtualUsers) (hd1 : 0 < sc.duration) (hd2 : sc.duration ≤ 31556952)
    (hi : i < sc.steps.length)
    (hprev : ∀ j (hj : j < i),
      stepCheck sc (prefixRequests sc.steps j) j (sc.steps.get ⟨j, lt_trans hj hi⟩) =
        Except.ok ())
    (hfail : stepCheck sc (prefixRequests sc.steps i) i (sc.steps.get ⟨i, hi⟩) =
      Except.error e) :
    validate (some sc) = Except.error e := by
  show validateLoaded sc = Except.error e
  unfold validateLoaded
  rw [if_neg hname, if_neg hurl, if_neg (by omega : ¬sc.virtualUsers ≤ 0),
    if_neg (by omega : ¬sc.duration ≤ 0), if_neg (by omega : ¬31556952 < sc.duration),
    if_neg (by omega : ¬sc.steps.length = 0)]
  refine validateSteps_first_error sc sc.steps 0 [] i hi e ?_ ?_
  · intro j hj
    simpa using hprev j hj
  · simpa using hfail

/-- C6 witness: a scenario whose first two steps are independently
invalid (bad method `FOO`, then a path missing the leading `/`): the
one reported error is the first step's. -/
def invalidStep0 : Step :=
  { request := "FOO /x"
    headers := none
    query := none
    pathParams := none
    body := none
    delay := 0
    saveToContext := none
    nextSteps := [] }

def invalidStep1 : Step :=
  { invalidStep0 with request := "GET x" }

def twoBadScenario : Scenario :=
  { name := "s"
    baseURL := "http://b"
    virtualUsers := 1
    duration := 10
    initialVariables := []
    steps := [invalidStep0, invalidStep1] }

theorem validate_first_error_witness :
    (stepCheck twoBadScenario [] 1 invalidStep1 =
        Except.error "step[1]: path must start with '/', got: x") ∧
    validate (some twoBadScenario) =
      Except.error
        "step[0]: invalid HTTP method 'FOO', must be one of: [GET POST PUT PATCH DELETE HEAD]" :=
  ⟨rfl,
   validate_first_error twoBadScenario 0 _
     (by decide) (by decide) (by decide) (by decide) (by decide) (by decide)
     (fun j hj => absurd hj (Nat.not_lt_zero j)) rfl⟩

/-! ### Claim C7: status-pattern validation -/

/-- C7 counterexample: `strconv.Atoi` accepts leading zeros, so the
four-character string `"0200"` is accepted although it is not an exact
3-digit code (and not a wildcard). -/
theorem validateStatusCode_leadingZero_cex :
    validateStatusCode "0200" = Except.ok () ∧ "0200".length = 4 ∧
    validateStatusCode "+200" = Except.ok () :=
  ⟨rfl, rfl, rfl⟩

/-- C7 amended: `validateStatusCode` accepts exactly the 3-character
wildcards `1xx`-`5xx` (first character a digit `1`-`5`, i.e. code 49-53,
last two literally `xx`), and otherwise every string `strconv.Atoi`
parses (optional sign, decimal digits, leading zeros allowed) to a
value in `[100, 599]` — so besides the exact 3-digit codes, strings
like `"0200"` and `"+200"` are accepted too; everything else
(including `""`, `"20"`, `"abc"`, `"6xx"`, `"099"`, codes ≥ 600) is
rejected. -/
theorem validateStatusCode_ok_iff (code : String) :
    validateStatusCode code = Except.ok () ↔
      (((code.length = 3 ∧ code.data.drop 1 = ['x', 'x']) ∧
          49 ≤ (code.data.headD ' ').toNat ∧ (code.data.headD ' ').toNat ≤ 53) ∨
       (¬(code.length = 3 ∧ code.data.drop 1 = ['x', 'x']) ∧
        ∃ n, atoiParse code = some n ∧ 100 ≤ n ∧ n < 600)) := by
  unfold validateStatusCode
  by_cases h0 : code = ""
  · subst h0
    rw [if_pos rfl]
    simp [atoiParse]
  · rw [if_neg h0]
    by_cases h1 : code.length = 3 ∧ code.data.drop 1 = ['x', 'x']
    · rw [if_pos h1]
      by_cases h2 : (code.data.headD ' ').toNat < 49 ∨ 53 < (code.data.headD ' ').toNat
      · rw [if_pos h2]
        simp only [List.headD_eq_head?_getD] at h2
        simp [h1]
        omega
      · rw [if_neg h2]
        push_neg at h2
        simp only [List.headD_eq_head?_getD] at h2
        simp [h1, h2]
    · rw [if_neg h1]
      cases ha : atoiParse code with
      | none =>
        simp [h1, ha]
        intro hlen htail
        exact ((h1 ⟨hlen, by rw [List.drop_one]; exact htail⟩).elim :
          49 ≤ (code.data.head?.getD ' ').toNat → 53 < (code.data.head?.getD ' ').toNat)
      | some n =>
        have h1a := h1
        simp only [List.drop_one] at h1a
        by_cases h3 : n < 100 ∨ 600 ≤ n
        · simp [h1a, h3]
          omega
        · push_neg at h3
          simp [h1a, h3]

/-! ### Claim C8: mapping validation -/

theorem breakAtChar_decomp (c : Char) :
    ∀ {l pre post : List Char}, breakAtChar c l = some (pre, post) →
      l = pre ++ c :: post ∧ c ∉ pre := by
  intro l
  induction l with
  | nil => intro pre post h; exact absurd h (by simp [breakAtChar])
  | cons d rest ih =>
    intro pre post h
    by_cases hd : d = c
    · rw [breakAtChar, if_pos hd] at h
      simp only [Option.some.injEq, Prod.mk.injEq] at h
      rw [← h.1, ← h.2, hd]
      exact ⟨rfl, by simp⟩
    · rw [breakAtChar, if_neg hd] at h
      cases hb : breakAtChar c rest with
      | none => rw [hb] at h; exact absurd h (by simp)
      | some p =>
        rw [hb] at h
        simp only [Option.map_some', Option.some.injEq, Prod.mk.injEq] at h
        obtain ⟨hrec, hmem⟩ := ih (show breakAtChar c rest = some (p.1, p.2) by rw [hb])
        rw [← h.1, ← h.2]
        constructor
        · rw [List.cons_append, ← hrec]
        · simp [hmem]
          exact fun he => hd he.symm

theorem strMk_dot (pre post : List Char) :
    String.mk (pre ++ '.' :: post) = String.mk pre ++ "." ++ String.mk post := by
  show String.mk (pre ++ '.' :: post) = String.mk ((pre ++ ['.']) ++ post)
  rw [List.append_assoc, List.singleton_append]

theorem breakAtChar_of_decomp (c : Char) :
    ∀ (pre post : List Char), c ∉ pre →
      breakAtChar c (pre ++ c :: post) = some (pre, post) := by
  intro pre
  induction pre with
  | nil => intro post _; simp [breakAtChar]
  | cons d pre1 ih =>
    intro post hmem
    have hd : ¬d = c := by
      intro h
      exact hmem (by simp [h])
    rw [List.cons_append, breakAtChar, if_neg hd,
      ih post (fun h => hmem (List.mem_cons_of_mem d h))]
    rfl

/-- C8: a mapping is accepted exactly when the source splits on its
first `.` into `prefix.field` with the prefix in the source set, and
the target likewise with its prefix in the target set; `response` is
absent from the target set, so any `response.*` target is rejected. -/
theorem validateMapping_ok_iff (source target : String) :
    (validateMapping source target = Except.ok () ↔
      ((∃ sp sf, source = sp ++ "." ++ sf ∧ '.' ∉ sp.data ∧ sp ∈ validSources) ∧
       (∃ tp tf, target = tp ++ "." ++ tf ∧ '.' ∉ tp.data ∧ tp ∈ validTargets))) ∧
    "response" ∉ validTargets := by
  refine ⟨?_, by decide⟩
  have hsplit : ∀ (s : String) (sp sf : String), s = sp ++ "." ++ sf → '.' ∉ sp.data →
      splitN2 s '.' = [sp, sf] := by
    intro s sp sf hs hmem
    subst hs
    unfold splitN2
    have hdata : (sp ++ "." ++ sf).data = (sp.data ++ ['.']) ++ sf.data := rfl
    rw [hdata, List.append_assoc, List.singleton_append,
      breakAtChar_of_decomp '.' sp.data sf.data hmem]
  unfold validateMapping
  cases hbs : breakAtChar '.' source.data with
  | none =>
    have h1 : splitN2 source '.' = [source] := by unfold splitN2; rw [hbs]
    rw [h1]
    simp only
    constructor
    · intro h; exact absurd h (by simp)
    · rintro ⟨⟨sp, sf, hsrc, hmem, _⟩, _⟩
      have := hsplit source sp sf hsrc hmem
      rw [h1] at this
      exact absurd this (by simp)
  | some p =>
    obtain ⟨hdec, hmem⟩ := breakAtChar_decomp '.' hbs
    have h1 : splitN2 source '.' = [String.mk p.1, String.mk p.2] := by
      unfold splitN2; rw [hbs]
    rw [h1]
    simp only
    by_cases hsv : validSources.contains (String.mk p.1) = false
    · rw [if_pos hsv]
      constructor
      · intro h; exact absurd h (by simp)
      · rintro ⟨⟨sp, sf, hsrc, hm2, hin⟩, _⟩
        have := hsplit source sp sf hsrc hm2
        rw [h1] at this
        simp only [List.cons.injEq, and_true] at this
        rw [← this.1] at hin
        simp at hsv
        exact (hsv hin).elim
    · rw [if_neg hsv]
      simp only [Bool.not_eq_false] at hsv
      cases hbt : breakAtChar '.' target.data with
      | none =>
        have h2 : splitN2 target '.' = [target] := by unfold splitN2; rw [hbt]
        rw [h2]
        simp only
        constructor
        · intro h; exact absurd h (by simp)
        · rintro ⟨_, ⟨tp, tf, htgt, hm3, _⟩⟩
          have := hsplit target tp tf htgt hm3
          rw [h2] at this
          exact absurd this (by simp)
      | some q =>
        obtain ⟨hdect, hmemt⟩ := breakAtChar_decomp '.' hbt
        have h2 : splitN2 target '.' = [String.mk q.1, String.mk q.2] := by
          unfold splitN2; rw [hbt]
        rw [h2]
        simp only
        by_cases htv : validTargets.contains (String.mk q.1) = false
        · rw [if_pos htv]
          constructor
          · intro h; exact absurd h (by simp)
          · rintro ⟨_, ⟨tp, tf, htgt, hm3, hin⟩⟩
            have := hsplit target tp tf htgt hm3
            rw [h2] at this
            simp only [List.cons.injEq, and_true] at this
            rw [← this.1] at hin
            simp at htv
            exact (htv hin).elim
        · rw [if_neg htv]
          simp only [Bool.not_eq_false] at htv
          constructor
          · intro _
            refine ⟨⟨String.mk p.1, String.mk p.2, ?_, by simpa using hmem, by simpa using hsv⟩,
                    ⟨String.mk q.1, String.mk q.2, ?_, by simpa using hmemt, by simpa using htv⟩⟩
            · rw [show source = String.mk source.data from rfl, hdec]
              exact strMk_dot p.1 p.2
            · rw [show target = String.mk target.data from rfl, hdect]
              exact strMk_dot q.1 q.2
          · intro _; rfl

end LoadForge
